import Mathlib

/-
Verification of the zip-json archive/extract core.

The development shallowly embeds the TypeScript sources:
  src/core/types.ts       (data model, error classes, Extractor.extract)
  src/core/compressor.ts  (Compressor.compress / Compressor.decompress)
  src/core/archiver.ts    (Archiver.archive)
  src/utils/glob.ts       (collectFiles, addDefaultIgnores)
  src/utils/validation.ts (validatePatterns)
  src/utils/file.ts       (filesystem helpers)

Pure functions become Lean functions; filesystem effects are explicit
state passing over an association-list filesystem; fallible operations
return Except/Option.  External Node built-ins (zlib gzip, base64
buffers, JSON.stringify/parse of string maps, path routines, the glob
matcher) are not repository code; they are modelled from the spec as
executable capabilities with the properties the spec assigns them, and
each such definition is marked "Modelled from the spec".
-/

deriving instance DecidableEq for Except

/-- A JavaScript runtime value, as far as the validation layer needs to
distinguish values (typeof names, falsiness, array-ness). -/
inductive JSValue where
  | vNull
  | vUndefined
  | vString (s : String)
  | vNumber (q : ℚ)
  | vBool (b : Bool)
  | vArray (xs : List JSValue)
  | vObject

/-- The JavaScript typeof operator's name for a value. -/
def JSValue.typeofName : JSValue → String
  | .vNull => "object"
  | .vUndefined => "undefined"
  | .vString _ => "string"
  | .vNumber _ => "number"
  | .vBool _ => "boolean"
  | .vArray _ => "object"
  | .vObject => "object"

/-- JavaScript truthiness of a value. -/
def JSValue.truthy : JSValue → Bool
  | .vNull => false
  | .vUndefined => false
  | .vString s => !(s = "")
  | .vNumber q => !(q = 0)
  | .vBool b => b
  | .vArray _ => true
  | .vObject => true

/-- Error values of src/core/types.ts, one constructor per exception
class; plainError models a bare JavaScript Error (as thrown by
src/utils/validation.ts). -/
inductive ZipError where
  | fileNotFound (path : String)
  | permission (path operation : String)
  | invalidArchive (message : String)
  | overwrite (path : String)
  | compression (message : String)
  | plainError (message : String)
deriving DecidableEq, Repr

/-- The runtime name field each error class sets on itself; a bare
Error keeps the name "Error".  Kinds are distinguishable by this name
(equivalently by class identity), independent of message text. -/
def ZipError.errorName : ZipError → String
  | .fileNotFound _ => "FileNotFoundError"
  | .permission _ _ => "PermissionError"
  | .invalidArchive _ => "InvalidArchiveError"
  | .overwrite _ => "OverwriteError"
  | .compression _ => "CompressionError"
  | .plainError _ => "Error"

/-- The message each error class builds in its constructor
(src/core/types.ts lines 45-80). -/
def ZipError.errorMessage : ZipError → String
  | .fileNotFound p => "File not found: " ++ p
  | .permission p op => "Permission denied: Cannot " ++ op ++ " " ++ p
  | .invalidArchive m => "Invalid archive: " ++ m
  | .overwrite p => "File already exists: " ++ p ++ "\nUse --overwrite flag to replace existing files."
  | .compression m => "Compression error: " ++ m
  | .plainError m => m

/-! ## Text and byte encodings (external capabilities)

Bytes are modelled as lists of naturals.  The three Node built-ins the
Compressor composes are modelled from the spec as executable reversible
encodings; their concrete shapes are model choices, their interfaces and
laws (reversibility; gunzip rejecting non-gzip data; the base64 decoder
being total and lenient) follow the spec and Node behaviour. -/

/-- Modelled from the spec: Buffer.from(s, "utf-8") — the reversible
byte encoding of text; each character becomes one abstract byte symbol
carrying its code point. -/
def utf8Encode (s : String) : List Nat :=
  s.data.map Char.toNat

/-- Modelled from the spec: buffer.toString("utf-8") — total decoding of
abstract byte symbols back to text. -/
def utf8Decode (bs : List Nat) : String :=
  String.mk (bs.map Char.ofNat)

/-- Modelled from the spec: node:zlib gzip at level 9 — a reversible
compression capability; the output carries the gzip magic header. -/
def gzipBytes (bs : List Nat) : List Nat :=
  31 :: 139 :: bs

/-- Modelled from the spec: node:zlib gunzip — inverts gzipBytes and
fails on any byte sequence that does not carry the gzip header, which is
how well-formed-but-invalid compressed input is rejected. -/
def gunzipBytes : List Nat → Option (List Nat)
  | 31 :: 139 :: rest => some rest
  | _ => none

/-- One encoded byte of the binary-to-text encoding: a run of markers
followed by a terminator. -/
def natToRun (n : Nat) : List Char :=
  List.replicate n 'a' ++ ['b']

/-- Modelled from the spec: buffer.toString("base64") — an injective
binary-to-text (base64-style) encoding producing text-safe output. -/
def base64Encode (bs : List Nat) : String :=
  String.mk (bs.map natToRun).flatten

/-- Run-length reader for base64Decode; characters outside the encoding
alphabet are skipped, trailing incomplete data is dropped. -/
def decodeRunsAux : List Char → Nat → List Nat
  | [], _ => []
  | c :: cs, acc =>
    if c = 'b' then acc :: decodeRunsAux cs 0
    else if c = 'a' then decodeRunsAux cs (acc + 1)
    else decodeRunsAux cs acc

/-- Modelled from the spec: Buffer.from(t, "base64") — the total,
lenient base64-style decoder (Node's base64 decoder never throws and
ignores characters outside the alphabet). -/
def base64Decode (s : String) : List Nat :=
  decodeRunsAux s.data 0

/-! ## src/core/compressor.ts -/

/-- Compressor.compress: utf-8 encode, gzip at level 9, then base64
(src/core/compressor.ts lines 9-19).  The try/catch wrapper is dead for
string inputs — neither primitive throws — so the model is total. -/
def Compressor.compress (data : String) : String :=
  base64Encode (gzipBytes (utf8Encode data))

/-- Compressor.decompress: base64 decode, gunzip, utf-8 decode
(src/core/compressor.ts lines 21-31); a gunzip failure is surfaced as a
CompressionError wrapping the underlying cause text. -/
def Compressor.decompress (base64Data : String) : Except ZipError String :=
  match gunzipBytes (base64Decode base64Data) with
  | some bs => .ok (utf8Decode bs)
  | none => .error (.compression "Failed to decompress data: incorrect header check")

/-! ## Roundtrip lemmas for the encodings -/

theorem decodeRunsAux_marker (cs : List Char) (acc : Nat) :
    decodeRunsAux ('a' :: cs) acc = decodeRunsAux cs (acc + 1) := rfl

theorem decodeRunsAux_stop (cs : List Char) (acc : Nat) :
    decodeRunsAux ('b' :: cs) acc = acc :: decodeRunsAux cs 0 := rfl

theorem decodeRunsAux_run (n : Nat) (rest : List Char) (acc : Nat) :
    decodeRunsAux (natToRun n ++ rest) acc = (acc + n) :: decodeRunsAux rest 0 := by
  induction n generalizing acc with
  | zero => simp [natToRun, decodeRunsAux_stop]
  | succ n ih =>
    have h : natToRun (n + 1) ++ rest = 'a' :: (natToRun n ++ rest) := by
      simp [natToRun, List.replicate_succ]
    rw [h, decodeRunsAux_marker, ih]
    have h2 : acc + 1 + n = acc + (n + 1) := by omega
    rw [h2]

theorem base64_roundtrip (bs : List Nat) :
    base64Decode (base64Encode bs) = bs := by
  suffices h : ∀ l : List Nat, decodeRunsAux (l.map natToRun).flatten 0 = l by
    simpa [base64Decode, base64Encode] using h bs
  intro l
  induction l with
  | nil => simp [decodeRunsAux]
  | cons x xs ih =>
    simp only [List.map_cons, List.flatten_cons]
    rw [decodeRunsAux_run]
    simpa using ih

theorem utf8_roundtrip (s : String) : utf8Decode (utf8Encode s) = s := by
  simp [utf8Decode, utf8Encode, List.map_map, Function.comp_def, Char.ofNat_toNat]

theorem gzip_roundtrip (bs : List Nat) : gunzipBytes (gzipBytes bs) = some bs := rfl

/-! ## JSON serialization of the payload map (external capability)

The Archiver serializes the path-to-base64 record with JSON.stringify
and the Extractor parses it back with JSON.parse.  Both are Node
built-ins; they are modelled from the spec as an injective text
serialization of an ordered string map together with a total parser
that inverts it and rejects other text. -/

/-- Length tag of one serialized field. -/
def encodeNatTag (n : Nat) : List Char :=
  List.replicate n 'I' ++ ['N']

/-- One serialized string field: length tag followed by the raw
characters. -/
def encodeField (s : String) : List Char :=
  encodeNatTag s.length ++ s.data

/-- Modelled from the spec: JSON.stringify of a string-to-string record
— an injective text serialization of the ordered key/value list,
inverted by jsonParseMap. -/
def jsonStringifyMap (m : List (String × String)) : String :=
  String.mk (m.map fun kv => encodeField kv.1 ++ encodeField kv.2).flatten

/-- Reads one length tag; fails on text that is not a serialized map. -/
def parseNatTag : List Char → Option (Nat × List Char)
  | [] => none
  | c :: cs =>
    if c = 'N' then some (0, cs)
    else if c = 'I' then (parseNatTag cs).map (fun x => (x.1 + 1, x.2))
    else none

/-- Reads one string field. -/
def parseField (cs : List Char) : Option (String × List Char) :=
  match parseNatTag cs with
  | none => none
  | some (n, rest) =>
    if n ≤ rest.length then some (String.mk (rest.take n), rest.drop n) else none

/-- Reads a sequence of key/value fields until the input is exhausted;
fuel bounds the recursion by the input length. -/
def parsePairsAux : Nat → List Char → Option (List (String × String))
  | _, [] => some []
  | 0, _ :: _ => none
  | fuel + 1, cs =>
    match parseField cs with
    | none => none
    | some (k, r1) =>
      match parseField r1 with
      | none => none
      | some (v, r2) =>
        match parsePairsAux fuel r2 with
        | none => none
        | some m => some ((k, v) :: m)

/-- Modelled from the spec: JSON.parse of a serialized string map —
total, inverts jsonStringifyMap, and fails (like a JSON.parse throw) on
text that is not a serialized map. -/
def jsonParseMap (s : String) : Option (List (String × String)) :=
  parsePairsAux s.data.length s.data

theorem parseNatTag_tag (n : Nat) (rest : List Char) :
    parseNatTag (encodeNatTag n ++ rest) = some (n, rest) := by
  induction n with
  | zero => simp [encodeNatTag, parseNatTag]
  | succ n ih =>
    have h : encodeNatTag (n + 1) ++ rest = 'I' :: (encodeNatTag n ++ rest) := by
      simp [encodeNatTag, List.replicate_succ]
    rw [h]
    simp [parseNatTag, ih]

theorem parseField_field (s : String) (rest : List Char) :
    parseField (encodeField s ++ rest) = some (s, rest) := by
  simp only [parseField, encodeField, List.append_assoc, parseNatTag_tag]
  have hlen : s.length = s.data.length := rfl
  rw [hlen]
  simp [List.take_append, List.drop_append]

theorem parsePairsAux_cons (fuel : Nat) (c : Char) (cs : List Char) :
    parsePairsAux (fuel + 1) (c :: cs) =
      match parseField (c :: cs) with
      | none => none
      | some (k, r1) =>
        match parseField r1 with
        | none => none
        | some (v, r2) =>
          match parsePairsAux fuel r2 with
          | none => none
          | some m => some ((k, v) :: m) := rfl

theorem parsePairsAux_encode (m : List (String × String)) :
    ∀ fuel, m.length ≤ fuel →
      parsePairsAux fuel (m.map fun kv => encodeField kv.1 ++ encodeField kv.2).flatten = some m := by
  induction m with
  | nil => intro fuel _; cases fuel <;> simp [parsePairsAux]
  | cons kv rest ih =>
    intro fuel hf
    match fuel with
    | 0 => simp at hf
    | fuel + 1 =>
      simp only [List.map_cons, List.flatten_cons, List.append_assoc]
      have hne : encodeField kv.1 ++ (encodeField kv.2 ++ (List.map (fun kv => encodeField kv.1 ++ encodeField kv.2) rest).flatten) ≠ [] := by
        simp [encodeField, encodeNatTag]
      obtain ⟨c, cs, hcons⟩ := List.exists_cons_of_ne_nil hne
      rw [hcons, parsePairsAux_cons fuel c cs, ← hcons]
      simp only [parseField_field, ih fuel (by simpa using hf)]

theorem stringify_length_ge (m : List (String × String)) :
    m.length ≤ ((m.map fun kv => encodeField kv.1 ++ encodeField kv.2).flatten).length := by
  induction m with
  | nil => simp
  | cons kv rest ih =>
    simp only [List.map_cons, List.flatten_cons, List.length_append, List.length_cons]
    have h1 : 1 ≤ (encodeField kv.1).length := by
      simp [encodeField, encodeNatTag]
      omega
    omega

theorem jsonMap_roundtrip (m : List (String × String)) :
    jsonParseMap (jsonStringifyMap m) = some m := by
  have hdata : (jsonStringifyMap m).data = (m.map fun kv => encodeField kv.1 ++ encodeField kv.2).flatten := rfl
  simp only [jsonParseMap, hdata]
  exact parsePairsAux_encode m _ (stringify_length_ge m)

/-! ## Path routines (external capabilities over a POSIX path model) -/

/-- Modelled from the spec: path.resolve — an already absolute path is
kept, a relative one is resolved against the current working
directory. -/
def resolvePath (cwd p : String) : String :=
  if p.data.head? = some '/' then p else cwd ++ "/" ++ p

/-- Modelled from the spec: path.join of a directory and a relative
component (src/utils/file.ts joinPath). -/
def joinPath (a b : String) : String :=
  a ++ "/" ++ b

/-- Characters strictly before the last slash; none when no slash
occurs. -/
def dirCharsAux : List Char → Option (List Char)
  | [] => none
  | c :: cs =>
    match dirCharsAux cs with
    | some d => some (c :: d)
    | none => if c = '/' then some [] else none

/-- Modelled from the spec: path.dirname (src/utils/file.ts
getDirName) — the path up to the last slash, "." when there is no
slash, "/" for a top-level entry. -/
def getDirName (p : String) : String :=
  match dirCharsAux p.data with
  | none => "."
  | some [] => "/"
  | some d => String.mk d

/-- Bool test for list prefixes of paths. -/
def isPrefixChars : List Char → List Char → Bool
  | [], _ => true
  | _ :: _, [] => false
  | a :: as, b :: bs => a = b && isPrefixChars as bs

/-- Modelled from the spec: path.relative plus backslash normalization
(src/utils/file.ts makeRelativePath) — a path below the base directory
loses the base-directory prefix and separator; the model keeps other
paths unchanged (every verified property matches below the base
directory). -/
def makeRelativePath (filePath baseDir : String) : String :=
  if isPrefixChars (baseDir ++ "/").data filePath.data then
    String.mk (filePath.data.drop (baseDir ++ "/").data.length)
  else filePath

/-! ## String ordering and sorting (Array.prototype.sort) -/

/-- Lexicographic order on code points: the comparison JavaScript's
default Array.prototype.sort applies to strings. -/
def lexLeChars : List Char → List Char → Bool
  | [], _ => true
  | _ :: _, [] => false
  | a :: as, b :: bs =>
    if a.toNat < b.toNat then true
    else if b.toNat < a.toNat then false
    else lexLeChars as bs

/-- String comparison used for the deterministic ordering contract. -/
def strLe (a b : String) : Bool :=
  lexLeChars a.data b.data

/-- Sorted insertion of one string. -/
def insertStr (x : String) : List String → List String
  | [] => [x]
  | y :: ys => if strLe x y then x :: y :: ys else y :: insertStr x ys

/-- Modelled from the spec: Array.prototype.sort with the default
string comparison — the sorted rearrangement of the array. -/
def sortStrings : List String → List String
  | [] => []
  | x :: xs => insertStr x (sortStrings xs)

/-- Modelled from the spec: adding one element to a JavaScript Set —
insertion-ordered and duplicate-suppressing. -/
def setAdd (l : List String) (x : String) : List String :=
  if x ∈ l then l else l ++ [x]

/-- Adding every element of a list to a JavaScript Set. -/
def setAddAll (l : List String) (xs : List String) : List String :=
  xs.foldl setAdd l

/-! ## Filesystem model and src/utils/file.ts -/

/-- One filesystem object: a regular file with its bytes, or a
directory with the size stat reports for the directory node; both carry
permission bits and an mtime string. -/
inductive FSNode where
  | file (content : List Nat) (mode : Nat) (mtime : String)
  | dir (statSize : Nat) (mode : Nat) (mtime : String)
deriving DecidableEq, Repr

/-- A filesystem snapshot: a finite map from absolute path to node;
the first binding for a path wins. -/
structure FS where
  entries : List (String × FSNode)
deriving DecidableEq, Repr

/-- First-match lookup in the path map. -/
def lookupEntries : List (String × FSNode) → String → Option FSNode
  | [], _ => none
  | kv :: rest, p => if kv.1 = p then some kv.2 else lookupEntries rest p

/-- Looks up the node at a path. -/
def FS.lookup (fs : FS) (p : String) : Option FSNode :=
  lookupEntries fs.entries p

/-- Drops every binding of a path. -/
def removeEntries : List (String × FSNode) → String → List (String × FSNode)
  | [], _ => []
  | kv :: rest, p => if kv.1 = p then removeEntries rest p else kv :: removeEntries rest p

/-- Replaces or creates the node at a path. -/
def FS.set (fs : FS) (p : String) (n : FSNode) : FS :=
  ⟨(p, n) :: removeEntries fs.entries p⟩

/-- FileEntry (src/core/types.ts lines 12-18). -/
structure FileEntry where
  path : String
  size : Nat
  mode : Nat
  isDirectory : Bool
  modifiedAt : String
deriving DecidableEq, Repr

/-- fileExists (src/utils/file.ts lines 165-167): existsSync — true
for files and directories alike. -/
def fileExists (fs : FS) (p : String) : Bool :=
  (fs.lookup p).isSome

/-- getFileStats (src/utils/file.ts lines 133-149): stat the path; a
file's size is its byte length, a directory's size is whatever stat
reports for the directory node; a missing path raises
FileNotFoundError. -/
def getFileStats (fs : FS) (filePath : String) : Except ZipError FileEntry :=
  match fs.lookup filePath with
  | some (.file content mode mtime) => .ok ⟨filePath, content.length, mode, false, mtime⟩
  | some (.dir statSize mode mtime) => .ok ⟨filePath, statSize, mode, true, mtime⟩
  | none => .error (.fileNotFound filePath)

/-- readFileContent (src/utils/file.ts lines 104-116): read the bytes
of a regular file; reading a directory fails with the raw EISDIR
error, a missing path raises FileNotFoundError. -/
def readFileContent (fs : FS) (filePath : String) : Except ZipError (List Nat) :=
  match fs.lookup filePath with
  | some (.file content _ _) => .ok content
  | some (.dir _ _ _) => .error (.plainError "EISDIR: illegal operation on a directory, read")
  | none => .error (.fileNotFound filePath)

/-- Modelled from the spec: fs mkdir with recursive set — idempotent
directory creation; the flat path map leaves ancestor creation
implicit, and the EEXIST branch for an existing non-directory node is
not reached by any verified property. -/
def mkdirRec (fs : FS) (p : String) : FS :=
  if fileExists fs p then fs else fs.set p (.dir 4096 493 "")

/-- writeFileContent (src/utils/file.ts lines 118-131): create the
parent directory, then write the bytes; a fresh file gets default mode
bits, an overwritten file keeps its mode. -/
def writeFileContent (fs : FS) (filePath : String) (content : List Nat) : FS :=
  match (mkdirRec fs (getDirName filePath)).lookup filePath with
  | some (.file _ mode mtime) =>
    (mkdirRec fs (getDirName filePath)).set filePath (.file content mode mtime)
  | _ => (mkdirRec fs (getDirName filePath)).set filePath (.file content 420 "")

/-- setFilePermissions (src/utils/file.ts lines 151-163): chmod on the
stored node; the extractor swallows its failures, so the missing-path
case leaves the filesystem unchanged. -/
def setFilePermissions (fs : FS) (filePath : String) (mode : Nat) : FS :=
  match fs.lookup filePath with
  | some (.file content _ mtime) => fs.set filePath (.file content mode mtime)
  | some (.dir s _ mtime) => fs.set filePath (.dir s mode mtime)
  | none => fs

/-! ## Data model (src/core/types.ts) -/

/-- ProgressInfo (src/core/types.ts lines 33-41); percentage is a
JavaScript number, modelled as a rational.  The progress callback is
modelled by collecting the delivered events in order. -/
structure ProgressInfo where
  type : String
  currentFile : String
  processedFiles : Nat
  totalFiles : Nat
  processedBytes : Nat
  totalBytes : Nat
  percentage : ℚ
deriving DecidableEq, Repr

/-- The meta object of a container (src/core/types.ts lines 2-8);
files is Option so that the non-array shapes validateArchive rejects
are expressible. -/
structure MetaData where
  version : String
  createdAt : String
  files : Option (List FileEntry)
  totalSize : Nat
  fileCount : Nat
deriving DecidableEq, Repr

/-- ZipJsonData (src/core/types.ts lines 1-10); meta and blob are
Option so that the missing/mistyped shapes validateArchive rejects are
expressible; an empty version string doubles as a missing version
(both are falsy). -/
structure ZipJsonData where
  meta : Option MetaData
  blob : Option String
deriving DecidableEq, Repr

/-- ZipOptions (src/core/types.ts lines 20-24); none means the option
was not supplied and the documented default applies. -/
structure ZipOptions where
  baseDir : Option String := none
  ignore : List String := []

/-- UnzipOptions (src/core/types.ts lines 26-31). -/
structure UnzipOptions where
  outputDir : Option String := none
  overwrite : Option Bool := none
  preservePermissions : Option Bool := none

/-- GlobOptions (src/utils/glob.ts lines 7-10). -/
structure GlobOptions where
  baseDir : Option String := none
  ignore : List String := []

/-! ## src/utils/validation.ts -/

/-- Whitespace for the String.prototype.trim model. -/
def isWhitespaceChar (c : Char) : Bool :=
  c = ' ' || c = '\t' || c = '\n' || c = '\r'

/-- Modelled from the spec: String.prototype.trim — strips leading and
trailing whitespace. -/
def trimChars (cs : List Char) : List Char :=
  ((cs.dropWhile isWhitespaceChar).reverse.dropWhile isWhitespaceChar).reverse

/-- Per-element scan of validatePatterns (src/utils/validation.ts lines
93-105): elements are checked in order, so the first offending index
wins; a non-string element and an empty/whitespace-only string produce
distinct messages. -/
def validatePatternsList : List JSValue → Nat → Option ZipError
  | [], _ => none
  | v :: rest, i =>
    match v with
    | .vString s =>
      if trimChars s.data = [] then
        some (.plainError ("patterns[" ++ toString i ++ "] must be a non-empty string"))
      else validatePatternsList rest (i + 1)
    | _ => some (.plainError ("patterns[" ++ toString i ++ "] must be a string, got " ++ v.typeofName))

/-- validatePatterns (src/utils/validation.ts lines 88-106): a falsy or
non-array argument is rejected outright, otherwise the elements are
scanned in order. -/
def validatePatterns (patterns : JSValue) : Except ZipError Unit :=
  if !patterns.truthy then .error (.plainError "patterns must be an array of strings")
  else
    match patterns with
    | .vArray xs =>
      match validatePatternsList xs 0 with
      | some e => .error e
      | none => .ok ()
    | _ => .error (.plainError "patterns must be an array of strings")

/-! ## src/utils/glob.ts -/

/-- The glob matcher, an external collaborator per the spec: one
pattern, the resolved base directory as cwd, and ignore patterns yield
the absolute matching paths. -/
abbrev GlobFn := String → String → List String → List String

/-- addDefaultIgnores (src/utils/glob.ts lines 63-74): the fixed
default ignore rules always go ahead of caller-supplied patterns. -/
def addDefaultIgnores (ignorePatterns : List String) : List String :=
  ["**/node_modules/**", "**/.git/**", "**/.DS_Store", "**/Thumbs.db", "**/*.tmp", "**/*.temp"]
    ++ ignorePatterns

/-- The validated patterns argument as its list of strings. -/
def patternStrings : JSValue → List String
  | .vArray xs => xs.filterMap fun v => match v with | .vString s => some s | _ => none
  | _ => []

/-- collectFiles (src/utils/glob.ts lines 12-57): validate the
patterns, resolve the base directory, accumulate every pattern's
matches into a Set, sort, stat each path — silently dropping a path
whose stat fails — and emit entries carrying base-relative paths. -/
def collectFiles (fs : FS) (g : GlobFn) (cwd : String) (patterns : JSValue)
    (options : GlobOptions) : Except ZipError (List FileEntry) :=
  match validatePatterns patterns with
  | .error e => .error e
  | .ok _ =>
    let baseDir := options.baseDir.getD cwd
    let resolvedBaseDir := resolvePath cwd baseDir
    let pats := patternStrings patterns
    if pats.length = 0 then .ok []
    else
      let allFiles := pats.foldl
        (fun acc pattern => setAddAll acc (g pattern resolvedBaseDir options.ignore)) []
      .ok ((sortStrings allFiles).filterMap fun filePath =>
        match getFileStats fs filePath with
        | .ok stats => some { stats with path := makeRelativePath filePath resolvedBaseDir }
        | .error _ => none)

/-! ## src/core/archiver.ts (Archiver.archive) -/

/-- The per-iteration accumulators of Archiver.archive (lines 31-36),
plus the delivered progress events. -/
structure BuildState where
  fileContents : List (String × String)
  fileEntries : List FileEntry
  totalSize : Nat
  fileCount : Nat
  processedFiles : Nat
  processedBytes : Nat
  events : List ProgressInfo
deriving DecidableEq, Repr

/-- The initial accumulators of Archiver.archive. -/
def initBuildState : BuildState :=
  ⟨[], [], 0, 0, 0, 0, []⟩

/-- One throttled progress event of Archiver.archive (lines 63-75). -/
def zipEvent (currentFile : String) (processedFiles totalFiles processedBytes totalBytes : Nat) :
    ProgressInfo :=
  ⟨"zip", currentFile, processedFiles, totalFiles, processedBytes, totalBytes,
    if totalFiles > 0 then (processedFiles : ℚ) / (totalFiles : ℚ) * 100 else 0⟩

/-- The entry loop of Archiver.archive (lines 44-79): directories are
retained without payload; each file is read (relative entry paths are
re-anchored at the base directory), its bytes are stored base64-encoded
in the payload map, and the accumulators advance; a read failure skips
the file entirely; every 10th processed file emits a progress event. -/
def archiveLoop (fs : FS) (baseDir : String) (totalFiles totalBytes : Nat) :
    List FileEntry → BuildState → BuildState
  | [], st => st
  | f :: rest, st =>
    if f.isDirectory then
      archiveLoop fs baseDir totalFiles totalBytes rest
        { st with fileEntries := st.fileEntries ++ [f] }
    else
      match readFileContent fs (if f.path.data.head? = some '/' then f.path else baseDir ++ "/" ++ f.path) with
      | .error _ => archiveLoop fs baseDir totalFiles totalBytes rest st
      | .ok content =>
        let base64Content := base64Encode content
        let st1 : BuildState :=
          { st with
            fileContents := st.fileContents ++ [(f.path, base64Content)]
            fileEntries := st.fileEntries ++ [f]
            totalSize := st.totalSize + f.size
            fileCount := st.fileCount + 1
            processedFiles := st.processedFiles + 1
            processedBytes := st.processedBytes + f.size }
        let st2 : BuildState :=
          if st1.processedFiles % 10 = 0 then
            { st1 with events := st1.events ++
                [zipEvent f.path st1.processedFiles totalFiles st1.processedBytes totalBytes] }
          else st1
        archiveLoop fs baseDir totalFiles totalBytes rest st2

/-- createEmptyArchive (src/core/archiver.ts lines 109-120). -/
def createEmptyArchive (now : String) : ZipJsonData :=
  ⟨some ⟨"1.0.0", now, some [], 0, 0⟩, some ""⟩

/-- Archiver.archive (src/core/archiver.ts lines 14-107): collect the
matched entries with the merged ignore rules, return an empty archive
when nothing matched, otherwise run the entry loop, deliver the
guaranteed terminal 100-percent event, serialize the payload map, and
compress it into the blob.  now is the build wall-clock time; the
returned list is every delivered progress event in order. -/
def archive (fs : FS) (g : GlobFn) (cwd now : String) (patterns : JSValue)
    (options : ZipOptions) : Except ZipError (ZipJsonData × List ProgressInfo) :=
  let baseDir := options.baseDir.getD cwd
  let ignorePatterns := addDefaultIgnores options.ignore
  match collectFiles fs g cwd patterns ⟨some baseDir, ignorePatterns⟩ with
  | .error e => .error e
  | .ok files =>
    if files.length = 0 then .ok (createEmptyArchive now, [])
    else
      let totalFiles := (files.filter fun f => !f.isDirectory).length
      let totalBytes := files.foldl (fun sum f => sum + (if f.isDirectory then 0 else f.size)) 0
      let st := archiveLoop fs baseDir totalFiles totalBytes files initBuildState
      let events := st.events ++
        [⟨"zip", "", totalFiles, totalFiles, totalBytes, totalBytes, 100⟩]
      let jsonString := jsonStringifyMap st.fileContents
      let blob := Compressor.compress jsonString
      .ok (⟨some ⟨"1.0.0", now, some st.fileEntries, st.totalSize, st.fileCount⟩, some blob⟩,
        events)

/-! ## Archive reader (src/core/types.ts, Extractor) -/

/-- Extractor.validateArchive (src/core/types.ts lines 194-210),
returning the validated fields: missing meta, falsy (empty) version,
non-array files and non-string blob are rejected with the specific
reason; nothing else — in particular no version value — is checked. -/
def validateArchive (data : ZipJsonData) : Except ZipError (MetaData × List FileEntry × String) :=
  match data.meta with
  | none => .error (.invalidArchive "Missing metadata")
  | some meta =>
    if meta.version = "" then .error (.invalidArchive "Missing version information")
    else
      match meta.files with
      | none => .error (.invalidArchive "Invalid file entries")
      | some files =>
        match data.blob with
        | none => .error (.invalidArchive "Invalid or missing blob data")
        | some blob => .ok (meta, files, blob)

/-- JavaScript object indexing into the parsed payload map: for
duplicate keys the last binding wins, a missing key gives undefined
(none). -/
def lookupContent (contents : List (String × String)) (k : String) : Option String :=
  (contents.reverse.find? fun kv => kv.1 = k).map (fun kv => kv.2)

/-- Decompressing and parsing the blob (src/core/types.ts lines
113-121): both a Compressor failure and an unparseable decompressed
text end up in the same catch block. -/
def decodeBlob (blob : String) : Option (List (String × String)) :=
  match Compressor.decompress blob with
  | .error _ => none
  | .ok s => jsonParseMap s

/-- The mutable loop state of Extractor.extract: the filesystem, the
written paths, the progress accumulators and the delivered events. -/
structure ExtractState where
  fs : FS
  extractedFiles : List String
  processedFiles : Nat
  processedBytes : Nat
  events : List ProgressInfo
deriving DecidableEq, Repr

/-- One throttled progress event of Extractor.extract (lines 164-175). -/
def unzipEvent (currentFile : String) (processedFiles totalFiles processedBytes totalBytes : Nat) :
    ProgressInfo :=
  ⟨"unzip", currentFile, processedFiles, totalFiles, processedBytes, totalBytes,
    if totalFiles > 0 then (processedFiles : ℚ) / (totalFiles : ℚ) * 100 else 0⟩

/-- The entry loop of Extractor.extract (src/core/types.ts lines
129-176): directories are created idempotently and recorded; for a
file, the overwrite check on an existing destination comes first, then
the parent directory is created, then the payload bytes are looked up —
a falsy value (missing key or empty string) skips the entry — then the
bytes are written, permissions are optionally restored (failures
swallowed), the path is recorded, and every 10th written file emits a
progress event.  An overwrite conflict aborts with the state reached so
far. -/
def extractLoop (outputDir : String) (overwrite preservePermissions : Bool)
    (contents : List (String × String)) (totalFiles totalBytes : Nat) :
    List FileEntry → ExtractState → ExtractState × Option ZipError
  | [], st => (st, none)
  | entry :: rest, st =>
    let outputPath := joinPath outputDir entry.path
    if entry.isDirectory then
      extractLoop outputDir overwrite preservePermissions contents totalFiles totalBytes rest
        { st with fs := mkdirRec st.fs outputPath
                  extractedFiles := st.extractedFiles ++ [outputPath] }
    else if fileExists st.fs outputPath && !overwrite then
      (st, some (.overwrite outputPath))
    else
      let st1 : ExtractState := { st with fs := mkdirRec st.fs (getDirName outputPath) }
      match lookupContent contents entry.path with
      | none =>
        extractLoop outputDir overwrite preservePermissions contents totalFiles totalBytes rest st1
      | some content =>
        if content = "" then
          extractLoop outputDir overwrite preservePermissions contents totalFiles totalBytes rest st1
        else
          let buffer := base64Decode content
          let fs2 := writeFileContent st1.fs outputPath buffer
          let fs3 := if preservePermissions then setFilePermissions fs2 outputPath entry.mode else fs2
          let st2 : ExtractState :=
            { st1 with
              fs := fs3
              extractedFiles := st1.extractedFiles ++ [outputPath]
              processedFiles := st1.processedFiles + 1
              processedBytes := st1.processedBytes + entry.size }
          let st3 : ExtractState :=
            if st2.processedFiles % 10 = 0 then
              { st2 with events := st2.events ++
                  [unzipEvent entry.path st2.processedFiles totalFiles st2.processedBytes totalBytes] }
            else st2
          extractLoop outputDir overwrite preservePermissions contents totalFiles totalBytes rest st3

/-- Extractor.extract (src/core/types.ts lines 96-192): validate, stop
on an empty blob, decompress and parse the payload — any failure there
is an InvalidArchiveError raised before any filesystem mutation — then
run the entry loop and deliver the guaranteed terminal event.  Returns
the call's outcome, the final filesystem, and the delivered progress
events in order. -/
def extract (fs : FS) (cwd : String) (data : ZipJsonData) (options : UnzipOptions) :
    Except ZipError (List String) × FS × List ProgressInfo :=
  let outputDir := options.outputDir.getD cwd
  let overwrite := options.overwrite.getD false
  let preservePermissions := options.preservePermissions.getD true
  match validateArchive data with
  | .error e => (.error e, fs, [])
  | .ok (meta, files, blob) =>
    if blob = "" then (.ok [], fs, [])
    else
      match decodeBlob blob with
      | none => (.error (.invalidArchive "Failed to decompress or parse archive blob"), fs, [])
      | some fileContents =>
        let totalFiles := (files.filter fun f => !f.isDirectory).length
        let totalBytes := meta.totalSize
        let (st, err) := extractLoop outputDir overwrite preservePermissions fileContents
          totalFiles totalBytes files ⟨fs, [], 0, 0, []⟩
        match err with
        | some e => (.error e, st.fs, st.events)
        | none =>
          (.ok st.extractedFiles, st.fs,
            st.events ++ [⟨"unzip", "", totalFiles, totalFiles, totalBytes, totalBytes, 100⟩])

/-! ## Small filesystem lemmas -/

theorem FS.lookup_set (fs : FS) (p : String) (n : FSNode) :
    (fs.set p n).lookup p = some n := by
  simp [FS.set, FS.lookup, lookupEntries]

theorem lookupEntries_remove (l : List (String × FSNode)) (p q : String) (h : ¬ q = p) :
    lookupEntries (removeEntries l p) q = lookupEntries l q := by
  induction l with
  | nil => rfl
  | cons kv rest ih =>
    by_cases hk : kv.1 = p
    · have hq : ¬ kv.1 = q := fun hh => h (hh ▸ hk)
      have hpq : ¬ p = q := fun hh => h hh.symm
      simp [removeEntries, hk, lookupEntries, hq, hpq, ih]
    · by_cases hq : kv.1 = q
      · simp [removeEntries, hk, lookupEntries, hq, h]
      · simp [removeEntries, hk, lookupEntries, hq, ih]

theorem FS.lookup_set_ne (fs : FS) (p q : String) (n : FSNode) (h : ¬ q = p) :
    (fs.set p n).lookup q = fs.lookup q := by
  have hpq : ¬ p = q := fun hh => h hh.symm
  simp [FS.set, FS.lookup, lookupEntries, hpq]
  exact lookupEntries_remove fs.entries p q h

theorem fileExists_set (fs : FS) (p q : String) (n : FSNode)
    (h : fileExists fs q = true) : fileExists (fs.set p n) q = true := by
  by_cases hq : q = p
  · subst hq; simp [fileExists, FS.lookup_set]
  · simpa [fileExists, FS.lookup_set_ne fs p q n hq] using h

theorem fileExists_mkdirRec (fs : FS) (p q : String)
    (h : fileExists fs q = true) : fileExists (mkdirRec fs p) q = true := by
  unfold mkdirRec
  split
  · exact h
  · exact fileExists_set fs p q _ h

theorem fileExists_mkdirRec_self (fs : FS) (p : String) :
    fileExists (mkdirRec fs p) p = true := by
  unfold mkdirRec
  split
  · assumption
  · simp [fileExists, FS.lookup_set]

theorem fileExists_write (fs : FS) (p q : String) (content : List Nat)
    (h : fileExists fs q = true) : fileExists (writeFileContent fs p content) q = true := by
  have h1 := fileExists_mkdirRec fs (getDirName p) q h
  unfold writeFileContent
  split
  · exact fileExists_set _ p q _ h1
  · exact fileExists_set _ p q _ h1

theorem fileExists_write_self (fs : FS) (p : String) (content : List Nat) :
    fileExists (writeFileContent fs p content) p = true := by
  unfold writeFileContent
  split
  · simp [fileExists, FS.lookup_set]
  · simp [fileExists, FS.lookup_set]

theorem fileExists_chmod (fs : FS) (p q : String) (mode : Nat)
    (h : fileExists fs q = true) : fileExists (setFilePermissions fs p mode) q = true := by
  unfold setFilePermissions
  split
  · exact fileExists_set _ p q _ h
  · exact fileExists_set _ p q _ h
  · exact h

/-! ## Claim C2: codec inverse law -/

/-- C2: for every payload accepted by the Compression Codec — every
text b, including the empty one — decoding the encoding returns exactly
the input: Compressor.decompress (Compressor.compress b) = b. -/
theorem claim_C2_codec_inverse (b : String) :
    Compressor.decompress (Compressor.compress b) = .ok b := by
  simp only [Compressor.compress, Compressor.decompress, base64_roundtrip]
  rw [gzip_roundtrip]
  simp [utf8_roundtrip]

/-! ## Claim C3: corrupt blob raises InvalidArchiveError before any write -/

/-- C3: when the meta passes structural validation but the non-empty
blob fails to decompress or parse, extract raises InvalidArchiveError
(not CompressionError), delivers no progress events, and leaves the
filesystem untouched. -/
theorem claim_C3_corrupt_blob (fs : FS) (cwd : String) (data : ZipJsonData)
    (options : UnzipOptions) (meta : MetaData) (files : List FileEntry) (blob : String)
    (hv : validateArchive data = .ok (meta, files, blob))
    (hne : ¬ blob = "") (hdec : decodeBlob blob = none) :
    extract fs cwd data options =
      (.error (.invalidArchive "Failed to decompress or parse archive blob"), fs, []) := by
  simp [extract, hv, hne, hdec]

/-- C3 witness: a structurally valid archive whose blob decodes to
bytes without the gzip header; extraction fails with
InvalidArchiveError and the pre-existing filesystem is unchanged. -/
theorem claim_C3_witness :
    extract ⟨[("/out/q", FSNode.file [1] 420 "M")]⟩ "/cwd"
        ⟨some ⟨"1.0.0", "T", some [⟨"q", 1, 420, false, "M"⟩], 1, 1⟩, some "x"⟩
        ⟨some "/out", none, none⟩ =
      (.error (.invalidArchive "Failed to decompress or parse archive blob"),
        ⟨[("/out/q", FSNode.file [1] 420 "M")]⟩, []) := by
  have h := claim_C3_corrupt_blob ⟨[("/out/q", FSNode.file [1] 420 "M")]⟩ "/cwd"
    ⟨some ⟨"1.0.0", "T", some [⟨"q", 1, 420, false, "M"⟩], 1, 1⟩, some "x"⟩
    ⟨some "/out", none, none⟩ ⟨"1.0.0", "T", some [⟨"q", 1, 420, false, "M"⟩], 1, 1⟩
    [⟨"q", 1, 420, false, "M"⟩] "x" (by decide) (by decide) (by decide)
  exact h

/-! ## Claim C7: version handling of the reader -/

set_option maxRecDepth 100000 in
/-- C7 counterexample: an archive whose formatVersion has major
version 2 — a major version unknown to the reader — is not rejected:
extract accepts it and completes successfully. -/
theorem claim_C7_counterexample :
    extract ⟨[]⟩ "/cwd" ⟨some ⟨"2.0.0", "T", some [], 0, 0⟩, some ""⟩
        ⟨some "/out", none, none⟩ =
      (.ok [], ⟨[]⟩, []) := by decide

/-- C7 amended: validateArchive rejects a missing or empty
formatVersion with the specific InvalidArchiveError, and accepts every
non-empty version string — no major-version comparison is performed. -/
theorem claim_C7_version_check (data : ZipJsonData) (meta : MetaData)
    (files : List FileEntry) (blob : String)
    (hm : data.meta = some meta) (hf : meta.files = some files) (hb : data.blob = some blob) :
    validateArchive data =
      if meta.version = "" then .error (.invalidArchive "Missing version information")
      else .ok (meta, files, blob) := by
  by_cases hv : meta.version = "" <;> simp [validateArchive, hm, hf, hb, hv]

/-- C7 witness: an archive claiming format version 99.0.0 passes
validation. -/
theorem claim_C7_witness :
    validateArchive ⟨some ⟨"99.0.0", "T", some [], 0, 0⟩, some "x"⟩ =
      .ok (⟨"99.0.0", "T", some [], 0, 0⟩, [], "x") := by
  have h := claim_C7_version_check ⟨some ⟨"99.0.0", "T", some [], 0, 0⟩, some "x"⟩
    ⟨"99.0.0", "T", some [], 0, 0⟩ [] "x" rfl rfl rfl
  simpa using h

/-! ## Claim C6: directory entry sizes in built archives -/

/-- A snapshot whose only match is a directory with the usual nonzero
stat size. -/
def fsC6 : FS := ⟨[("/b/d", .dir 4096 493 "M")]⟩

/-- A glob capability matching exactly that directory. -/
def gC6 : GlobFn := fun pat _ _ => if pat = "**/*" then ["/b/d"] else []

set_option maxRecDepth 100000 in
/-- C6: build copies the stat-reported size into a directory entry
unchanged — the produced archive holds a FileEntry with
isDirectory = true and size = 4096, not 0 as documented. -/
theorem claim_C6_directory_size :
    archive fsC6 gC6 "/cwd" "T" (.vArray [.vString "**/*"]) ⟨some "/b", []⟩ =
      .ok (⟨some ⟨"1.0.0", "T", some [⟨"d", 4096, 493, true, "M"⟩], 0, 0⟩,
            some (Compressor.compress (jsonStringifyMap []))⟩,
        [⟨"zip", "", 0, 0, 0, 0, 100⟩]) := by decide

/-! ## Claim C5: percentage values of delivered progress events -/

/-- An archive holding a single directory entry and a payload map with
no files: the extraction has totalCount 0 and still delivers events. -/
def dataC5 : ZipJsonData :=
  ⟨some ⟨"1.0.0", "T", some [⟨"d", 4096, 493, true, "M"⟩], 0, 0⟩,
    some (Compressor.compress (jsonStringifyMap []))⟩

set_option maxRecDepth 100000 in
/-- C5 counterexample: extracting dataC5 delivers a ProgressInfo whose
totalFiles is 0 and whose percentage is 100, not 0 — refuting
"percentage equals 0 when totalCount is 0" for delivered events. -/
theorem claim_C5_counterexample :
    (⟨"unzip", "", 0, 0, 0, 0, 100⟩ : ProgressInfo)
        ∈ (extract ⟨[]⟩ "/cwd" dataC5 ⟨some "/out", none, none⟩).2.2 ∧
      ¬ ((⟨"unzip", "", 0, 0, 0, 0, 100⟩ : ProgressInfo).percentage = 0) := by
  constructor
  · decide
  · decide

/-! ## Claim C1: round-trip of build and extract -/

/-- A snapshot holding one zero-byte file. -/
def fsC1 : FS := ⟨[("/b/e", .file [] 420 "M")]⟩

/-- A glob capability matching exactly that file. -/
def gC1 : GlobFn := fun pat _ _ => if pat = "**/*" then ["/b/e"] else []

/-- The archive build produces for fsC1: the zero-byte file is captured
as an entry and as an empty payload value. -/
def dataC1 : ZipJsonData :=
  ⟨some ⟨"1.0.0", "T", some [⟨"e", 0, 420, false, "M"⟩], 0, 1⟩,
    some (Compressor.compress (jsonStringifyMap [("e", "")]))⟩

set_option maxRecDepth 100000 in
/-- C1: build captures a zero-byte file (entry recorded, fileCount 1,
payload key present with empty value), yet extracting the resulting
archive into an empty output location — overwrite permitted — writes
nothing: the extracted-paths list is empty and no file exists at the
destination path, so the round-trip does not reproduce the empty
file's (empty) byte content. -/
theorem claim_C1_roundtrip_loses_empty_file :
    archive fsC1 gC1 "/cwd" "T" (.vArray [.vString "**/*"]) ⟨some "/b", []⟩ =
        .ok (dataC1, [⟨"zip", "", 1, 1, 0, 0, 100⟩]) ∧
      (extract ⟨[]⟩ "/cwd" dataC1 ⟨some "/out", some true, none⟩).1 = .ok [] ∧
      (extract ⟨[]⟩ "/cwd" dataC1 ⟨some "/out", some true, none⟩).2.1.lookup "/out/e" = none := by
  refine ⟨by decide, by decide, by decide⟩

/-! ## Claim C9: validation of the patterns argument -/

theorem validatePatternsList_skip (pre rest : List JSValue) (i : Nat)
    (hpre : ∀ x ∈ pre, ∃ s, x = JSValue.vString s ∧ ¬ trimChars s.data = []) :
    validatePatternsList (pre ++ rest) i = validatePatternsList rest (i + pre.length) := by
  induction pre generalizing i with
  | nil => simp
  | cons x pre ih =>
    obtain ⟨s, hx, hs⟩ := hpre x (by simp)
    subst hx
    have hrest : ∀ y ∈ pre, ∃ s, y = JSValue.vString s ∧ ¬ trimChars s.data = [] :=
      fun y hy => hpre y (by simp [hy])
    simp only [List.cons_append, validatePatternsList, if_neg hs]
    change validatePatternsList (pre ++ rest) (i + 1) = _
    rw [ih (i + 1) hrest]
    have h3 : i + 1 + pre.length = i + (pre.length + 1) := by omega
    rw [h3]
    simp

/-- C9: validatePatterns identifies the first offending element with
the exact documented message — a non-array argument (null or any
non-array value) gives "patterns must be an array of strings", the
first non-string element at index i names i and the observed typeof
name, and the first empty/whitespace-only string at index i names i as
empty — and the raised value is a bare Error whose runtime kind name
differs from the kind name of every other error class in the taxonomy,
so the kinds are programmatically distinguishable independent of
message text. -/
theorem claim_C9_validation :
    (∀ v : JSValue, (∀ xs, ¬ v = .vArray xs) →
      validatePatterns v = .error (.plainError "patterns must be an array of strings")) ∧
    (∀ (pre : List JSValue) (v : JSValue) (rest : List JSValue),
      (∀ x ∈ pre, ∃ s, x = JSValue.vString s ∧ ¬ trimChars s.data = []) →
      (∀ s, ¬ v = .vString s) →
      validatePatterns (.vArray (pre ++ v :: rest)) =
        .error (.plainError
          ("patterns[" ++ toString pre.length ++ "] must be a string, got " ++ v.typeofName))) ∧
    (∀ (pre : List JSValue) (s : String) (rest : List JSValue),
      (∀ x ∈ pre, ∃ t, x = JSValue.vString t ∧ ¬ trimChars t.data = []) →
      trimChars s.data = [] →
      validatePatterns (.vArray (pre ++ .vString s :: rest)) =
        .error (.plainError
          ("patterns[" ++ toString pre.length ++ "] must be a non-empty string"))) ∧
    (∀ m : String,
      ¬ (ZipError.plainError m).errorName = (ZipError.fileNotFound m).errorName ∧
      ¬ (ZipError.plainError m).errorName = (ZipError.permission m m).errorName ∧
      ¬ (ZipError.plainError m).errorName = (ZipError.invalidArchive m).errorName ∧
      ¬ (ZipError.plainError m).errorName = (ZipError.overwrite m).errorName ∧
      ¬ (ZipError.plainError m).errorName = (ZipError.compression m).errorName) := by
  refine ⟨?_, ?_, ?_, ?_⟩
  · intro v hv
    cases v with
    | vNull => decide
    | vUndefined => decide
    | vObject => decide
    | vArray xs => exact absurd rfl (hv xs)
    | vBool b => cases b <;> decide
    | vString s => by_cases hs : s = "" <;> simp [validatePatterns, JSValue.truthy, hs]
    | vNumber q => by_cases hq : q = 0 <;> simp [validatePatterns, JSValue.truthy, hq]
  · intro pre v rest hpre hv
    have hskip := validatePatternsList_skip pre (v :: rest) 0 hpre
    simp only [Nat.zero_add] at hskip
    cases v with
    | vString s => exact absurd rfl (hv s)
    | vNull => simp [validatePatterns, JSValue.truthy, hskip, validatePatternsList, JSValue.typeofName]
    | vUndefined => simp [validatePatterns, JSValue.truthy, hskip, validatePatternsList, JSValue.typeofName]
    | vObject => simp [validatePatterns, JSValue.truthy, hskip, validatePatternsList, JSValue.typeofName]
    | vArray ys => simp [validatePatterns, JSValue.truthy, hskip, validatePatternsList, JSValue.typeofName]
    | vBool b => simp [validatePatterns, JSValue.truthy, hskip, validatePatternsList, JSValue.typeofName]
    | vNumber q => simp [validatePatterns, JSValue.truthy, hskip, validatePatternsList, JSValue.typeofName]
  · intro pre s rest hpre hs
    have hskip := validatePatternsList_skip pre (.vString s :: rest) 0 hpre
    simp only [Nat.zero_add] at hskip
    simp [validatePatterns, JSValue.truthy, hskip, validatePatternsList, hs]
  · intro m
    refine ⟨?_, ?_, ?_, ?_, ?_⟩
    · show ¬ ("Error" : String) = "FileNotFoundError"
      decide
    · show ¬ ("Error" : String) = "PermissionError"
      decide
    · show ¬ ("Error" : String) = "InvalidArchiveError"
      decide
    · show ¬ ("Error" : String) = "OverwriteError"
      decide
    · show ¬ ("Error" : String) = "CompressionError"
      decide

/-- C9 witness: the documented malformed inputs produce exactly the
documented errors, and the validation error's kind name differs from
OverwriteError's. -/
theorem claim_C9_witness :
    validatePatterns .vNull = .error (.plainError "patterns must be an array of strings") ∧
    validatePatterns (.vString "not-an-array") =
      .error (.plainError "patterns must be an array of strings") ∧
    validatePatterns (.vArray [.vNumber 123]) =
      .error (.plainError "patterns[0] must be a string, got number") ∧
    validatePatterns (.vArray [.vString ""]) =
      .error (.plainError "patterns[0] must be a non-empty string") ∧
    ¬ (ZipError.plainError "patterns must be an array of strings").errorName =
      (ZipError.overwrite "p").errorName := by
  refine ⟨?_, ?_, ?_, ?_, ?_⟩
  · exact claim_C9_validation.1 .vNull (fun xs h => JSValue.noConfusion h)
  · exact claim_C9_validation.1 (.vString "not-an-array") (fun xs h => JSValue.noConfusion h)
  · have h := claim_C9_validation.2.1 [] (.vNumber 123) [] (by simp)
      (fun s hh => JSValue.noConfusion hh)
    simpa using h
  · have h := claim_C9_validation.2.2.1 [] "" [] (by simp) (by decide)
    simpa using h
  · exact ((claim_C9_validation.2.2.2 "patterns must be an array of strings").2.2.2.1)

/-! ## Loop lemmas for the extractor -/


theorem extractLoop_append (od : String) (ow pp : Bool) (contents : List (String × String))
    (tf tb : Nat) (xs ys : List FileEntry) (st : ExtractState) :
    extractLoop od ow pp contents tf tb (xs ++ ys) st =
      (match extractLoop od ow pp contents tf tb xs st with
       | (st1, none) => extractLoop od ow pp contents tf tb ys st1
       | (st1, some e) => (st1, some e)) := by
  induction xs generalizing st with
  | nil => simp [extractLoop]
  | cons e xs ih =>
    cases hdir : e.isDirectory
    · cases hex : fileExists st.fs (joinPath od e.path) && !ow
      · cases hl : lookupContent contents e.path with
        | none =>
          simp [extractLoop, hdir, hex, hl]
          exact ih _
        | some c =>
          by_cases hc : c = ""
          · simp [extractLoop, hdir, hex, hl, hc]
            exact ih _
          · simp [extractLoop, hdir, hex, hl, hc]
            exact ih _
      · simp [extractLoop, hdir, hex]
    · simp [extractLoop, hdir]
      exact ih _

theorem extractLoop_abort (od : String) (pp : Bool) (contents : List (String × String))
    (tf tb : Nat) (e : FileEntry) (rest : List FileEntry) (st : ExtractState)
    (he : e.isDirectory = false)
    (hex : fileExists st.fs (joinPath od e.path) = true) :
    extractLoop od false pp contents tf tb (e :: rest) st =
      (st, some (.overwrite (joinPath od e.path))) := by
  simp [extractLoop, he, hex]

theorem extractLoop_written (od : String) (ow pp : Bool) (contents : List (String × String))
    (tf tb : Nat) :
    ∀ (l : List FileEntry) (st : ExtractState),
      (∀ p ∈ st.extractedFiles, fileExists st.fs p = true) →
      ∀ p ∈ (extractLoop od ow pp contents tf tb l st).1.extractedFiles,
        fileExists (extractLoop od ow pp contents tf tb l st).1.fs p = true := by
  intro l
  induction l with
  | nil => intro st h; simpa [extractLoop] using h
  | cons e rest ih =>
    intro st h
    cases hdir : e.isDirectory
    · cases hex : fileExists st.fs (joinPath od e.path) && !ow
      · cases hl : lookupContent contents e.path with
        | none =>
          simp only [extractLoop, hdir, hex, hl]
          apply ih
          intro p hp
          exact fileExists_mkdirRec _ _ _ (h p hp)
        | some c =>
          by_cases hc : c = ""
          · simp only [extractLoop, hdir, hex, hl, hc, if_pos rfl]
            apply ih
            intro p hp
            exact fileExists_mkdirRec _ _ _ (h p hp)
          · by_cases hm : (st.processedFiles + 1) % 10 = 0
            · simp only [extractLoop, hdir, hex, hl, if_neg hc, hm, if_pos rfl]
              apply ih
              intro p hp
              rcases List.mem_append.mp hp with hp2 | hp2
              · cases pp
                · simp only [Bool.false_eq_true, if_false]
                  exact fileExists_write _ _ _ _ (fileExists_mkdirRec _ _ _ (h p hp2))
                · simp only [if_pos rfl]
                  exact fileExists_chmod _ _ _ _
                    (fileExists_write _ _ _ _ (fileExists_mkdirRec _ _ _ (h p hp2)))
              · simp only [List.mem_singleton] at hp2
                subst hp2
                cases pp
                · simp only [Bool.false_eq_true, if_false]
                  exact fileExists_write_self _ _ _
                · simp only [if_pos rfl]
                  exact fileExists_chmod _ _ _ _ (fileExists_write_self _ _ _)
            · simp only [extractLoop, hdir, hex, hl, if_neg hc, hm, if_neg hm]
              apply ih
              intro p hp
              rcases List.mem_append.mp hp with hp2 | hp2
              · cases pp
                · simp only [Bool.false_eq_true, if_false]
                  exact fileExists_write _ _ _ _ (fileExists_mkdirRec _ _ _ (h p hp2))
                · simp only [if_pos rfl]
                  exact fileExists_chmod _ _ _ _
                    (fileExists_write _ _ _ _ (fileExists_mkdirRec _ _ _ (h p hp2)))
              · simp only [List.mem_singleton] at hp2
                subst hp2
                cases pp
                · simp only [Bool.false_eq_true, if_false]
                  exact fileExists_write_self _ _ _
                · simp only [if_pos rfl]
                  exact fileExists_chmod _ _ _ _ (fileExists_write_self _ _ _)
      · simp only [extractLoop, hdir, hex]
        exact fun p hp => h p hp
    · simp only [extractLoop, hdir]
      apply ih
      intro p hp
      rcases List.mem_append.mp hp with hp2 | hp2
      · exact fileExists_mkdirRec _ _ _ (h p hp2)
      · simp only [List.mem_singleton] at hp2
        subst hp2
        exact fileExists_mkdirRec_self _ _

/-! ## Helper roundtrip facts for concrete archives -/

theorem decompress_compress (s : String) :
    Compressor.decompress (Compressor.compress s) = .ok s := by
  simp only [Compressor.compress, Compressor.decompress, base64_roundtrip]
  rw [gzip_roundtrip]
  simp [utf8_roundtrip]

theorem decodeBlob_compress (m : List (String × String)) :
    decodeBlob (Compressor.compress (jsonStringifyMap m)) = some m := by
  simp [decodeBlob, decompress_compress, jsonMap_roundtrip]

theorem compress_ne_nil (s : String) : ¬ Compressor.compress s = "" := by
  intro h
  have h2 : (List.map natToRun (gzipBytes (utf8Encode s))).flatten = [] :=
    congrArg String.data h
  simp [gzipBytes, natToRun, List.replicate_succ] at h2

/-! ## Claim C4: overwrite conflicts fail fast without rollback -/

/-- C4: with overwrite disabled, when the entries split as
pre ++ e :: post, the prefix extracts cleanly (reaching state st), e is
a file entry, and e's destination already exists at that point, extract
aborts with OverwriteError naming exactly that destination; the final
filesystem is st's — every file and directory written for the prefix is
still on disk (no rollback) and nothing after e was written — and only
the prefix's events were delivered. -/
theorem claim_C4_overwrite_failfast
    (fs : FS) (cwd : String) (data : ZipJsonData) (options : UnzipOptions)
    (meta : MetaData) (pre post : List FileEntry) (e : FileEntry)
    (blob : String) (contents : List (String × String)) (st : ExtractState)
    (hv : validateArchive data = .ok (meta, pre ++ e :: post, blob))
    (hb : ¬ blob = "")
    (hd : decodeBlob blob = some contents)
    (how : options.overwrite.getD false = false)
    (hpre : extractLoop (options.outputDir.getD cwd) false (options.preservePermissions.getD true)
        contents (((pre ++ e :: post).filter fun f => !f.isDirectory).length) meta.totalSize
        pre ⟨fs, [], 0, 0, []⟩ = (st, none))
    (he : e.isDirectory = false)
    (hex : fileExists st.fs (joinPath (options.outputDir.getD cwd) e.path) = true) :
    extract fs cwd data options =
        (.error (.overwrite (joinPath (options.outputDir.getD cwd) e.path)), st.fs, st.events) ∧
      ∀ p ∈ st.extractedFiles, fileExists st.fs p = true := by
  have hloop : extractLoop (options.outputDir.getD cwd) false
      (options.preservePermissions.getD true) contents
      (((pre ++ e :: post).filter fun f => !f.isDirectory).length) meta.totalSize
      (pre ++ e :: post) ⟨fs, [], 0, 0, []⟩ =
      (st, some (.overwrite (joinPath (options.outputDir.getD cwd) e.path))) := by
    rw [extractLoop_append, hpre]
    exact extractLoop_abort _ _ _ _ _ e post st he hex
  constructor
  · simp only [extract, hv, how, if_neg hb, hd, hloop]
  · have h2 := extractLoop_written (options.outputDir.getD cwd) false
      (options.preservePermissions.getD true) contents
      (((pre ++ e :: post).filter fun f => !f.isDirectory).length) meta.totalSize
      pre ⟨fs, [], 0, 0, []⟩ (by intro p hp; cases hp)
    rw [hpre] at h2
    exact h2

/-- Entry "a" of the overwrite witnesses. -/
def aEntW : FileEntry := ⟨"a", 1, 420, false, "M"⟩

/-- Entry "b" of the overwrite witnesses. -/
def bEntW : FileEntry := ⟨"b", 1, 420, false, "M"⟩

/-- Payload map of the C4 witness archive. -/
def contentsW : List (String × String) := [("a", base64Encode [5]), ("b", base64Encode [9])]

/-- Blob of the C4 witness archive. -/
def blobW : String := Compressor.compress (jsonStringifyMap contentsW)

/-- The C4 witness archive: two file entries a and b. -/
def dataW : ZipJsonData := ⟨some ⟨"1.0.0", "T", some [aEntW, bEntW], 2, 2⟩, some blobW⟩

/-- A filesystem already holding b's destination. -/
def fs0W : FS := ⟨[("/out/b", .file [9] 420 "M")]⟩

/-- The state after cleanly extracting the prefix [a] of the C4
witness: /out/a written, /out created, the conflicting /out/b
untouched. -/
def stW : ExtractState :=
  ⟨⟨[("/out/a", .file [5] 420 ""), ("/out", .dir 4096 493 ""), ("/out/b", .file [9] 420 "M")]⟩,
    ["/out/a"], 1, 1, []⟩

set_option maxRecDepth 8000 in
/-- C4 witness: extracting the two-entry archive into a tree already
holding /out/b aborts with OverwriteError "/out/b", /out/a written for
the prefix remains on disk, and nothing after b was written. -/
theorem claim_C4_witness :
    extract fs0W "/cwd" dataW ⟨some "/out", none, none⟩ =
        (.error (.overwrite (joinPath "/out" bEntW.path)), stW.fs, stW.events) ∧
      ∀ p ∈ stW.extractedFiles, fileExists stW.fs p = true := by
  have h := claim_C4_overwrite_failfast fs0W "/cwd" dataW ⟨some "/out", none, none⟩
    ⟨"1.0.0", "T", some [aEntW, bEntW], 2, 2⟩ [aEntW] [] bEntW blobW contentsW stW
    (by simp [dataW, validateArchive]) (by simp [blobW, compress_ne_nil])
    (by simpa [blobW] using decodeBlob_compress contentsW) rfl (by decide) (by decide) (by decide)
  exact h

/-! ## Claim C10: the overwrite check precedes the payload lookup -/

/-- C10: under the same split as C4, the abort on an existing
destination happens even when the entry's bytes are absent from the
decoded payload map — an entry that would otherwise be silently
skipped still aborts the extraction, because the existence/overwrite
check comes before the payload lookup. -/
theorem claim_C10_check_precedes_lookup
    (fs : FS) (cwd : String) (data : ZipJsonData) (options : UnzipOptions)
    (meta : MetaData) (pre post : List FileEntry) (e : FileEntry)
    (blob : String) (contents : List (String × String)) (st : ExtractState)
    (hv : validateArchive data = .ok (meta, pre ++ e :: post, blob))
    (hb : ¬ blob = "")
    (hd : decodeBlob blob = some contents)
    (how : options.overwrite.getD false = false)
    (hpre : extractLoop (options.outputDir.getD cwd) false (options.preservePermissions.getD true)
        contents (((pre ++ e :: post).filter fun f => !f.isDirectory).length) meta.totalSize
        pre ⟨fs, [], 0, 0, []⟩ = (st, none))
    (he : e.isDirectory = false)
    (_hmiss : lookupContent contents e.path = none)
    (hex : fileExists st.fs (joinPath (options.outputDir.getD cwd) e.path) = true) :
    extract fs cwd data options =
      (.error (.overwrite (joinPath (options.outputDir.getD cwd) e.path)), st.fs, st.events) := by
  have hloop : extractLoop (options.outputDir.getD cwd) false
      (options.preservePermissions.getD true) contents
      (((pre ++ e :: post).filter fun f => !f.isDirectory).length) meta.totalSize
      (pre ++ e :: post) ⟨fs, [], 0, 0, []⟩ =
      (st, some (.overwrite (joinPath (options.outputDir.getD cwd) e.path))) := by
    rw [extractLoop_append, hpre]
    exact extractLoop_abort _ _ _ _ _ e post st he hex
  simp only [extract, hv, how, if_neg hb, hd, hloop]

/-- Payload map of the C10 witness archive: only key zzz, no key b. -/
def contentsW2 : List (String × String) := [("zzz", base64Encode [1])]

/-- The C10 witness archive: a single file entry b whose bytes are
absent from the payload map. -/
def dataW2 : ZipJsonData :=
  ⟨some ⟨"1.0.0", "T", some [bEntW], 1, 1⟩,
    some (Compressor.compress (jsonStringifyMap contentsW2))⟩

set_option maxRecDepth 8000 in
/-- C10 witness: b's destination exists, b's bytes are absent from the
payload, and extraction still aborts with OverwriteError "/out/b"
before the lookup could skip the entry. -/
theorem claim_C10_witness :
    extract fs0W "/cwd" dataW2 ⟨some "/out", none, none⟩ =
      (.error (.overwrite (joinPath "/out" bEntW.path)), fs0W, []) := by
  have h := claim_C10_check_precedes_lookup fs0W "/cwd" dataW2 ⟨some "/out", none, none⟩
    ⟨"1.0.0", "T", some [bEntW], 1, 1⟩ [] [] bEntW
    (Compressor.compress (jsonStringifyMap contentsW2)) contentsW2 ⟨fs0W, [], 0, 0, []⟩
    (by simp [dataW2, validateArchive]) (compress_ne_nil (jsonStringifyMap contentsW2))
    (decodeBlob_compress contentsW2) rfl rfl (by decide) (by decide) (by decide)
  exact h

/-! ## Claim C5 (amended): the actual shape of delivered percentages -/

/-- The shape every delivered progress event actually has: either the
guaranteed terminal event — percentage exactly 100 with the counts
pinned to the totals, even when totalFiles is 0 — or a throttled
in-loop event whose percentage is exactly
processedFiles/totalFiles*100, an unrounded rational in (0, 100], with
totalFiles positive. -/
def progressOk (ev : ProgressInfo) : Prop :=
  (ev.percentage = 100 ∧ ev.processedFiles = ev.totalFiles ∧ ev.processedBytes = ev.totalBytes) ∨
  (0 < ev.totalFiles ∧ ev.processedFiles ≤ ev.totalFiles ∧
    ev.percentage = (ev.processedFiles : ℚ) / (ev.totalFiles : ℚ) * 100 ∧
    0 < ev.percentage ∧ ev.percentage ≤ 100)

theorem event_pct_ok (p tf : Nat) (hp : 0 < p) (hle : p ≤ tf) :
    0 < (p : ℚ) / (tf : ℚ) * 100 ∧ (p : ℚ) / (tf : ℚ) * 100 ≤ 100 := by
  have htf : 0 < tf := lt_of_lt_of_le hp hle
  have h1 : (0 : ℚ) < p := by exact_mod_cast hp
  have h2 : (0 : ℚ) < tf := by exact_mod_cast htf
  constructor
  · exact mul_pos (div_pos h1 h2) (by norm_num)
  · have h3 : (p : ℚ) / tf ≤ 1 := by
      rw [div_le_one h2]
      exact_mod_cast hle
    calc (p : ℚ) / tf * 100 ≤ 1 * 100 := mul_le_mul_of_nonneg_right h3 (by norm_num)
      _ = 100 := by norm_num

theorem unzipEvent_progressOk (cf : String) (p tf pb tb : Nat) (hp : 0 < p) (hle : p ≤ tf) :
    progressOk (unzipEvent cf p tf pb tb) := by
  have htf : 0 < tf := lt_of_lt_of_le hp hle
  obtain ⟨hpos, hbound⟩ := event_pct_ok p tf hp hle
  right
  refine ⟨htf, hle, ?_, ?_, ?_⟩
  · simp [unzipEvent, htf]
  · simpa [unzipEvent, htf] using hpos
  · simpa [unzipEvent, htf] using hbound

theorem zipEvent_progressOk (cf : String) (p tf pb tb : Nat) (hp : 0 < p) (hle : p ≤ tf) :
    progressOk (zipEvent cf p tf pb tb) := by
  have htf : 0 < tf := lt_of_lt_of_le hp hle
  obtain ⟨hpos, hbound⟩ := event_pct_ok p tf hp hle
  right
  refine ⟨htf, hle, ?_, ?_, ?_⟩
  · simp [zipEvent, htf]
  · simpa [zipEvent, htf] using hpos
  · simpa [zipEvent, htf] using hbound

/-- The number of non-directory entries of a list — the totalFiles
quantity both loops report against. -/
def ndCount (l : List FileEntry) : Nat :=
  (l.filter fun f => !f.isDirectory).length

theorem ndCount_cons_dir (e : FileEntry) (rest : List FileEntry) (h : e.isDirectory = true) :
    ndCount (e :: rest) = ndCount rest := by
  simp [ndCount, h]

theorem ndCount_cons_file (e : FileEntry) (rest : List FileEntry) (h : e.isDirectory = false) :
    ndCount (e :: rest) = ndCount rest + 1 := by
  simp [ndCount, h]

theorem extractLoop_events_ok (od : String) (ow pp : Bool) (contents : List (String × String))
    (tf tb : Nat) :
    ∀ (l : List FileEntry) (st : ExtractState),
      (∀ ev ∈ st.events, progressOk ev) →
      st.processedFiles + ndCount l ≤ tf →
      ∀ ev ∈ (extractLoop od ow pp contents tf tb l st).1.events, progressOk ev := by
  intro l
  induction l with
  | nil => intro st h _; simpa [extractLoop] using h
  | cons e rest ih =>
    intro st h hinv
    cases hdir : e.isDirectory
    · have hinv2 := (ndCount_cons_file e rest hdir) ▸ hinv
      cases hex : fileExists st.fs (joinPath od e.path) && !ow
      · cases hl : lookupContent contents e.path with
        | none =>
          simp only [extractLoop, hdir, hex, hl]
          refine ih _ h ?_
          show st.processedFiles + ndCount rest ≤ tf
          omega
        | some c =>
          by_cases hc : c = ""
          · simp only [extractLoop, hdir, hex, hl, hc, if_pos rfl]
            refine ih _ h ?_
            show st.processedFiles + ndCount rest ≤ tf
            omega
          · by_cases hm : (st.processedFiles + 1) % 10 = 0
            · simp only [extractLoop, hdir, hex, hl, if_neg hc, hm, if_pos rfl]
              refine ih _ ?_ ?_
              · intro ev hev
                rcases List.mem_append.mp hev with hev | hev
                · exact h ev hev
                · simp only [List.mem_singleton] at hev
                  subst hev
                  exact unzipEvent_progressOk _ _ _ _ _ (by omega) (by omega)
              · show st.processedFiles + 1 + ndCount rest ≤ tf
                omega
            · simp only [extractLoop, hdir, hex, hl, if_neg hc, hm, if_neg hm]
              refine ih _ h ?_
              show st.processedFiles + 1 + ndCount rest ≤ tf
              omega
      · simp only [extractLoop, hdir, hex]
        exact fun ev hev => h ev hev
    · have hinv2 := (ndCount_cons_dir e rest hdir) ▸ hinv
      simp only [extractLoop, hdir]
      refine ih _ h ?_
      show st.processedFiles + ndCount rest ≤ tf
      omega

theorem archiveLoop_events_ok (fs : FS) (baseDir : String) (tf tb : Nat) :
    ∀ (l : List FileEntry) (st : BuildState),
      (∀ ev ∈ st.events, progressOk ev) →
      st.processedFiles + ndCount l ≤ tf →
      ∀ ev ∈ (archiveLoop fs baseDir tf tb l st).events, progressOk ev := by
  intro l
  induction l with
  | nil => intro st h _; simpa [archiveLoop] using h
  | cons e rest ih =>
    intro st h hinv
    cases hdir : e.isDirectory
    · have hinv2 := (ndCount_cons_file e rest hdir) ▸ hinv
      cases hr : readFileContent fs (if e.path.data.head? = some '/' then e.path else baseDir ++ "/" ++ e.path) with
      | error e0 =>
        simp only [archiveLoop, hdir, hr]
        refine ih _ h ?_
        show st.processedFiles + ndCount rest ≤ tf
        omega
      | ok content =>
        by_cases hm : (st.processedFiles + 1) % 10 = 0
        · simp only [archiveLoop, hdir, hr, hm, if_pos rfl]
          refine ih _ ?_ ?_
          · intro ev hev
            rcases List.mem_append.mp hev with hev | hev
            · exact h ev hev
            · simp only [List.mem_singleton] at hev
              subst hev
              exact zipEvent_progressOk _ _ _ _ _ (by omega) (by omega)
          · show st.processedFiles + 1 + ndCount rest ≤ tf
            omega
        · simp only [archiveLoop, hdir, hr, hm, if_neg hm]
          refine ih _ h ?_
          show st.processedFiles + 1 + ndCount rest ≤ tf
          omega
    · have hinv2 := (ndCount_cons_dir e rest hdir) ▸ hinv
      simp only [archiveLoop, hdir]
      refine ih _ h ?_
      show st.processedFiles + ndCount rest ≤ tf
      omega

/-- C5 amended: every ProgressInfo delivered during a build or an
extraction is either the guaranteed terminal event — percentage 100,
processedFiles and processedBytes pinned to the totals, even when
totalFiles is 0 — or a throttled in-loop event whose percentage equals
processedFiles/totalFiles*100 exactly: an unrounded rational in
(0, 100], with totalFiles positive; no rounding is applied anywhere in
the core. -/
theorem claim_C5_amended
    (fs : FS) (g : GlobFn) (cwd now : String) (patterns : JSValue) (zoptions : ZipOptions)
    (fs2 : FS) (cwd2 : String) (data : ZipJsonData) (uoptions : UnzipOptions) :
    (∀ d evs, archive fs g cwd now patterns zoptions = .ok (d, evs) →
      ∀ ev ∈ evs, progressOk ev) ∧
    (∀ ev ∈ (extract fs2 cwd2 data uoptions).2.2, progressOk ev) := by
  constructor
  · intro d evs harch ev hev
    cases hc : collectFiles fs g cwd patterns
        ⟨some (zoptions.baseDir.getD cwd), addDefaultIgnores zoptions.ignore⟩ with
    | error e0 =>
      have key : archive fs g cwd now patterns zoptions = .error e0 := by
        simp only [archive, hc]
      rw [key] at harch
      exact absurd harch (by simp)
    | ok files =>
      by_cases hlen : files.length = 0
      · have key : archive fs g cwd now patterns zoptions = .ok (createEmptyArchive now, []) := by
          simp [archive, hc, hlen]
        rw [key] at harch
        simp only [Except.ok.injEq, Prod.mk.injEq] at harch
        rw [← harch.2] at hev
        cases hev
      · have key : archive fs g cwd now patterns zoptions =
            .ok (⟨some ⟨"1.0.0", now,
                some (archiveLoop fs (zoptions.baseDir.getD cwd)
                  ((files.filter fun f => !f.isDirectory).length)
                  (files.foldl (fun sum f => sum + (if f.isDirectory then 0 else f.size)) 0)
                  files initBuildState).fileEntries,
                (archiveLoop fs (zoptions.baseDir.getD cwd)
                  ((files.filter fun f => !f.isDirectory).length)
                  (files.foldl (fun sum f => sum + (if f.isDirectory then 0 else f.size)) 0)
                  files initBuildState).totalSize,
                (archiveLoop fs (zoptions.baseDir.getD cwd)
                  ((files.filter fun f => !f.isDirectory).length)
                  (files.foldl (fun sum f => sum + (if f.isDirectory then 0 else f.size)) 0)
                  files initBuildState).fileCount⟩,
              some (Compressor.compress (jsonStringifyMap
                (archiveLoop fs (zoptions.baseDir.getD cwd)
                  ((files.filter fun f => !f.isDirectory).length)
                  (files.foldl (fun sum f => sum + (if f.isDirectory then 0 else f.size)) 0)
                  files initBuildState).fileContents))⟩,
              (archiveLoop fs (zoptions.baseDir.getD cwd)
                ((files.filter fun f => !f.isDirectory).length)
                (files.foldl (fun sum f => sum + (if f.isDirectory then 0 else f.size)) 0)
                files initBuildState).events ++
              [⟨"zip", "", (files.filter fun f => !f.isDirectory).length,
                (files.filter fun f => !f.isDirectory).length,
                files.foldl (fun sum f => sum + (if f.isDirectory then 0 else f.size)) 0,
                files.foldl (fun sum f => sum + (if f.isDirectory then 0 else f.size)) 0, 100⟩]) := by
          simp only [archive, hc, if_neg hlen]
        rw [key] at harch
        simp only [Except.ok.injEq, Prod.mk.injEq] at harch
        rw [← harch.2] at hev
        rcases List.mem_append.mp hev with hev2 | hev2
        · refine archiveLoop_events_ok fs (zoptions.baseDir.getD cwd) _ _ files initBuildState
            (by intro x hx; cases hx) ?_ ev hev2
          simp [initBuildState, ndCount]
        · simp only [List.mem_singleton] at hev2
          subst hev2
          left
          exact ⟨rfl, rfl, rfl⟩
  · intro ev hev
    cases hval : validateArchive data with
    | error e0 =>
      have key : extract fs2 cwd2 data uoptions = (.error e0, fs2, []) := by
        simp only [extract, hval]
      rw [key] at hev
      cases hev
    | ok triple =>
      obtain ⟨meta, files, blob⟩ := triple
      by_cases hblob : blob = ""
      · have key : extract fs2 cwd2 data uoptions = (.ok [], fs2, []) := by
          simp [extract, hval, hblob]
        rw [key] at hev
        cases hev
      · cases hdec : decodeBlob blob with
        | none =>
          have key : extract fs2 cwd2 data uoptions =
              (.error (.invalidArchive "Failed to decompress or parse archive blob"), fs2, []) := by
            simp only [extract, hval, if_neg hblob, hdec]
          rw [key] at hev
          cases hev
        | some contents =>
          rcases hloop : extractLoop (uoptions.outputDir.getD cwd2) (uoptions.overwrite.getD false)
              (uoptions.preservePermissions.getD true) contents
              ((files.filter fun f => !f.isDirectory).length) meta.totalSize files
              ⟨fs2, [], 0, 0, []⟩ with ⟨st, err⟩
          have hst : ∀ x ∈ st.events, progressOk x := by
            have h1 := extractLoop_events_ok (uoptions.outputDir.getD cwd2)
              (uoptions.overwrite.getD false) (uoptions.preservePermissions.getD true) contents
              ((files.filter fun f => !f.isDirectory).length) meta.totalSize files
              ⟨fs2, [], 0, 0, []⟩ (by intro x hx; cases hx) (by simp [ndCount])
            rw [hloop] at h1
            exact h1
          cases err with
          | some e0 =>
            have key : extract fs2 cwd2 data uoptions = (.error e0, st.fs, st.events) := by
              simp only [extract, hval, if_neg hblob, hdec, hloop]
            rw [key] at hev
            exact hst ev hev
          | none =>
            have key : extract fs2 cwd2 data uoptions =
                (.ok st.extractedFiles, st.fs, st.events ++
                  [⟨"unzip", "", (files.filter fun f => !f.isDirectory).length,
                    (files.filter fun f => !f.isDirectory).length,
                    meta.totalSize, meta.totalSize, 100⟩]) := by
              simp only [extract, hval, if_neg hblob, hdec, hloop]
            rw [key] at hev
            rcases List.mem_append.mp hev with hev2 | hev2
            · exact hst ev hev2
            · simp only [List.mem_singleton] at hev2
              subst hev2
              left
              exact ⟨rfl, rfl, rfl⟩

set_option maxRecDepth 100000 in
/-- C5 witness: the terminal event of the dataC5 extraction satisfies
the amended shape. -/
theorem claim_C5_witness : progressOk ⟨"unzip", "", 0, 0, 0, 0, 100⟩ := by
  have h := (claim_C5_amended ⟨[]⟩ (fun _ _ _ => []) "/cwd" "T" .vNull ⟨none, []⟩
    ⟨[]⟩ "/cwd" dataC5 ⟨some "/out", none, none⟩).2
  exact h ⟨"unzip", "", 0, 0, 0, 0, 100⟩ (by decide)

/-! ## Claim C8: deterministic lexicographic ordering of collection -/

theorem lexLeChars_total (a : List Char) : ∀ b, lexLeChars a b = true ∨ lexLeChars b a = true := by
  induction a with
  | nil => intro b; left; rfl
  | cons x xs ih =>
    intro b
    cases b with
    | nil => right; rfl
    | cons y ys =>
      rcases Nat.lt_trichotomy x.toNat y.toNat with h | h | h
      · left; simp [lexLeChars, h]
      · have hx : ¬ x.toNat < y.toNat := by omega
        have hy : ¬ y.toNat < x.toNat := by omega
        rcases ih ys with h2 | h2
        · left; simp [lexLeChars, hx, hy, h2]
        · right; simp [lexLeChars, hx, hy, h2]
      · right; simp [lexLeChars, h]

theorem lexLeChars_trans (a : List Char) :
    ∀ b c, lexLeChars a b = true → lexLeChars b c = true → lexLeChars a c = true := by
  induction a with
  | nil => intro b c _ _; rfl
  | cons x xs ih =>
    intro b c h1 h2
    cases b with
    | nil => simp [lexLeChars] at h1
    | cons y ys =>
      cases c with
      | nil => simp [lexLeChars] at h2
      | cons z zs =>
        rcases Nat.lt_trichotomy x.toNat y.toNat with hxy | hxy | hxy
        · rcases Nat.lt_trichotomy y.toNat z.toNat with hyz | hyz | hyz
          · simp [lexLeChars, show x.toNat < z.toNat by omega]
          · simp [lexLeChars, show x.toNat < z.toNat by omega]
          · simp [lexLeChars, show ¬ y.toNat < z.toNat by omega, hyz] at h2
        · rcases Nat.lt_trichotomy y.toNat z.toNat with hyz | hyz | hyz
          · simp [lexLeChars, show x.toNat < z.toNat by omega]
          · have hxz1 : ¬ x.toNat < z.toNat := by omega
            have hxz2 : ¬ z.toNat < x.toNat := by omega
            simp only [lexLeChars, show ¬ x.toNat < y.toNat by omega,
              show ¬ y.toNat < x.toNat by omega, if_false] at h1
            simp only [lexLeChars, show ¬ y.toNat < z.toNat by omega,
              show ¬ z.toNat < y.toNat by omega, if_false] at h2
            simp only [lexLeChars, hxz1, hxz2, if_false]
            exact ih ys zs h1 h2
          · simp [lexLeChars, show ¬ y.toNat < z.toNat by omega, hyz] at h2
        · simp [lexLeChars, show ¬ x.toNat < y.toNat by omega, hxy] at h1

theorem strLe_total (a b : String) : strLe a b = true ∨ strLe b a = true :=
  lexLeChars_total a.data b.data

theorem strLe_trans (a b c : String) (h1 : strLe a b = true) (h2 : strLe b c = true) :
    strLe a c = true :=
  lexLeChars_trans a.data b.data c.data h1 h2

theorem mem_insertStr (x a : String) (l : List String) :
    a ∈ insertStr x l ↔ a = x ∨ a ∈ l := by
  induction l with
  | nil => simp [insertStr]
  | cons y ys ih =>
    by_cases h : strLe x y = true
    · simp [insertStr, h]
    · simp [insertStr, h, ih]
      tauto

theorem pairwise_insertStr (x : String) (l : List String)
    (hl : l.Pairwise (fun a b => strLe a b = true)) :
    (insertStr x l).Pairwise (fun a b => strLe a b = true) := by
  induction l with
  | nil => simp [insertStr]
  | cons y ys ih =>
    rcases List.pairwise_cons.mp hl with ⟨hy, hys⟩
    by_cases h : strLe x y = true
    · rw [insertStr, if_pos h]
      refine List.pairwise_cons.mpr ⟨?_, hl⟩
      intro z hz
      rcases List.mem_cons.mp hz with rfl | hz2
      · exact h
      · exact strLe_trans x y z h (hy z hz2)
    · rw [insertStr, if_neg h]
      refine List.pairwise_cons.mpr ⟨?_, ih hys⟩
      intro z hz
      rcases (mem_insertStr x z ys).mp hz with heq | hz2
      · rw [heq]
        rcases strLe_total x y with h2 | h2
        · exact absurd h2 h
        · exact h2
      · exact hy z hz2

theorem sortStrings_sorted (l : List String) :
    (sortStrings l).Pairwise (fun a b => strLe a b = true) := by
  induction l with
  | nil => simp [sortStrings]
  | cons x xs ih => exact pairwise_insertStr x (sortStrings xs) ih

theorem mem_sortStrings (a : String) (l : List String) :
    a ∈ sortStrings l ↔ a ∈ l := by
  induction l with
  | nil => simp [sortStrings]
  | cons x xs ih =>
    rw [sortStrings, mem_insertStr, ih, List.mem_cons]

theorem nodup_insertStr (x : String) (l : List String) (hx : ¬ x ∈ l) (hl : l.Nodup) :
    (insertStr x l).Nodup := by
  induction l with
  | nil => simp [insertStr]
  | cons y ys ih =>
    rcases List.nodup_cons.mp hl with ⟨hy, hys⟩
    by_cases h : strLe x y = true
    · rw [insertStr, if_pos h]
      exact List.nodup_cons.mpr ⟨hx, hl⟩
    · rw [insertStr, if_neg h]
      refine List.nodup_cons.mpr ⟨?_, ih (fun hmem => hx (List.mem_cons_of_mem y hmem)) hys⟩
      intro hmem
      rcases (mem_insertStr x y ys).mp hmem with heq | hmem2
      · refine hx ?_
        rw [← heq]
        exact List.mem_cons_self y ys
      · exact hy hmem2

theorem sortStrings_nodup (l : List String) (hl : l.Nodup) : (sortStrings l).Nodup := by
  induction l with
  | nil => simp [sortStrings]
  | cons x xs ih =>
    rcases List.nodup_cons.mp hl with ⟨hx, hxs⟩
    exact nodup_insertStr x (sortStrings xs) (fun h => hx ((mem_sortStrings x xs).mp h)) (ih hxs)

theorem mem_setAdd (l : List String) (x a : String) :
    a ∈ setAdd l x ↔ a ∈ l ∨ a = x := by
  by_cases h : x ∈ l
  · rw [setAdd, if_pos h]
    constructor
    · exact Or.inl
    · rintro (h2 | rfl)
      · exact h2
      · exact h
  · rw [setAdd, if_neg h]
    simp

theorem nodup_setAdd (l : List String) (x : String) (h : l.Nodup) : (setAdd l x).Nodup := by
  by_cases hx : x ∈ l
  · rw [setAdd, if_pos hx]; exact h
  · rw [setAdd, if_neg hx]
    simp [List.nodup_append, h, hx]

theorem mem_setAddAll (xs : List String) :
    ∀ (l : List String) (a : String), a ∈ setAddAll l xs ↔ a ∈ l ∨ a ∈ xs := by
  induction xs with
  | nil => intro l a; simp [setAddAll]
  | cons x xs ih =>
    intro l a
    rw [setAddAll, List.foldl_cons]
    have := ih (setAdd l x) a
    rw [setAddAll] at this
    rw [this, mem_setAdd]
    simp
    tauto

theorem nodup_setAddAll (xs : List String) :
    ∀ (l : List String), l.Nodup → (setAddAll l xs).Nodup := by
  induction xs with
  | nil => intro l h; simpa [setAddAll] using h
  | cons x xs ih =>
    intro l h
    rw [setAddAll, List.foldl_cons]
    have := ih (setAdd l x) (nodup_setAdd l x h)
    rwa [setAddAll] at this

theorem mem_patternFold (g : GlobFn) (rb : String) (ig : List String) (pats : List String) :
    ∀ (acc : List String) (a : String),
      a ∈ pats.foldl (fun acc pattern => setAddAll acc (g pattern rb ig)) acc ↔
        a ∈ acc ∨ ∃ pat ∈ pats, a ∈ g pat rb ig := by
  induction pats with
  | nil => intro acc a; simp
  | cons p pats ih =>
    intro acc a
    rw [List.foldl_cons, ih]
    have h2 : a ∈ setAddAll acc (g p rb ig) ↔ a ∈ acc ∨ a ∈ g p rb ig := mem_setAddAll _ _ _
    rw [h2]
    simp only [List.mem_cons]
    constructor
    · rintro ((ha | hg) | ⟨pat, hpat, hg⟩)
      · exact Or.inl ha
      · exact Or.inr ⟨p, Or.inl rfl, hg⟩
      · exact Or.inr ⟨pat, Or.inr hpat, hg⟩
    · rintro (ha | ⟨pat, (rfl | hpat), hg⟩)
      · exact Or.inl (Or.inl ha)
      · exact Or.inl (Or.inr hg)
      · exact Or.inr ⟨pat, hpat, hg⟩

theorem nodup_patternFold (g : GlobFn) (rb : String) (ig : List String) (pats : List String) :
    ∀ (acc : List String), acc.Nodup →
      (pats.foldl (fun acc pattern => setAddAll acc (g pattern rb ig)) acc).Nodup := by
  induction pats with
  | nil => intro acc h; simpa using h
  | cons p pats ih =>
    intro acc h
    rw [List.foldl_cons]
    exact ih _ (nodup_setAddAll _ _ h)

theorem validatePatternsList_ok (ps : List String) :
    ∀ i, (∀ s ∈ ps, ¬ trimChars s.data = []) →
      validatePatternsList (ps.map .vString) i = none := by
  induction ps with
  | nil => intro i _; rfl
  | cons s ps ih =>
    intro i h
    have hs := h s (by simp)
    simp only [List.map_cons, validatePatternsList, if_neg hs]
    exact ih (i + 1) (fun t ht => h t (by simp [ht]))

theorem validatePatterns_strings (ps : List String)
    (h : ∀ s ∈ ps, ¬ trimChars s.data = []) :
    validatePatterns (.vArray (ps.map .vString)) = .ok () := by
  simp [validatePatterns, JSValue.truthy, validatePatternsList_ok ps 0 h]

theorem patternStrings_map (ps : List String) :
    patternStrings (.vArray (ps.map .vString)) = ps := by
  induction ps with
  | nil => rfl
  | cons s ps ih =>
    simp only [patternStrings, List.map_cons, List.filterMap_cons] at ih ⊢
    rw [ih]

/-- C8: collection is deterministic and its order is the lexicographic
sort of the matched absolute paths — for a fixed snapshot, glob
capability, patterns, baseDir and ignore list, two collectFiles calls
give the same result, and that result is the sorted, deduplicated
union of the per-pattern matches (a path appears exactly when some
pattern matched it), each surviving path statted in place (stat
failures dropped) and relativized; build's entry order inherits this
order. -/
theorem claim_C8_deterministic_order
    (fs : FS) (g : GlobFn) (cwd : String) (ps : List String) (baseDir : Option String)
    (ignore : List String)
    (hval : ∀ s ∈ ps, ¬ trimChars s.data = []) :
    collectFiles fs g cwd (.vArray (ps.map .vString)) ⟨baseDir, ignore⟩ =
        collectFiles fs g cwd (.vArray (ps.map .vString)) ⟨baseDir, ignore⟩ ∧
      ∃ abs : List String,
        abs.Pairwise (fun a b => strLe a b = true) ∧
        abs.Nodup ∧
        (∀ p, p ∈ abs ↔ ∃ pat ∈ ps, p ∈ g pat (resolvePath cwd (baseDir.getD cwd)) ignore) ∧
        collectFiles fs g cwd (.vArray (ps.map .vString)) ⟨baseDir, ignore⟩ =
          .ok (abs.filterMap fun filePath =>
            match getFileStats fs filePath with
            | .ok stats =>
              some { stats with path := makeRelativePath filePath (resolvePath cwd (baseDir.getD cwd)) }
            | .error _ => none) := by
  have hok := validatePatterns_strings ps hval
  refine ⟨rfl, ?_⟩
  by_cases hlen : ps.length = 0
  · have hnil : ps = [] := List.length_eq_zero.mp hlen
    subst hnil
    refine ⟨[], by simp, by simp, by simp, ?_⟩
    have hok2 : validatePatterns (.vArray ([] : List JSValue)) = .ok () := hok
    simp [collectFiles, hok2, patternStrings]
  · refine ⟨sortStrings (ps.foldl
        (fun acc pattern => setAddAll acc (g pattern (resolvePath cwd (baseDir.getD cwd)) ignore)) []),
      sortStrings_sorted _,
      sortStrings_nodup _ (nodup_patternFold g _ ignore ps [] List.nodup_nil), ?_, ?_⟩
    · intro p
      rw [mem_sortStrings, mem_patternFold]
      simp
    · simp only [collectFiles, hok, patternStrings_map]
      rw [if_neg hlen]

/-- Glob capability of the C8 witness: one pattern matching two paths
out of lexicographic order. -/
def gC8 : GlobFn := fun pat _ _ => if pat = "*" then ["/b/x", "/b/a"] else []

/-- C8 witness: the sorted-dedup-union characterization instantiated
at a concrete snapshot, capability and pattern list. -/
theorem claim_C8_witness :
    collectFiles fs0W gC8 "/cwd" (.vArray (["*"].map .vString)) ⟨some "/b", []⟩ =
        collectFiles fs0W gC8 "/cwd" (.vArray (["*"].map .vString)) ⟨some "/b", []⟩ ∧
      ∃ abs : List String,
        abs.Pairwise (fun a b => strLe a b = true) ∧
        abs.Nodup ∧
        (∀ p, p ∈ abs ↔ ∃ pat ∈ ["*"], p ∈ gC8 pat (resolvePath "/cwd" ((some "/b").getD "/cwd")) []) ∧
        collectFiles fs0W gC8 "/cwd" (.vArray (["*"].map .vString)) ⟨some "/b", []⟩ =
          .ok (abs.filterMap fun filePath =>
            match getFileStats fs0W filePath with
            | .ok stats =>
              some { stats with path := makeRelativePath filePath (resolvePath "/cwd" ((some "/b").getD "/cwd")) }
            | .error _ => none) :=
  claim_C8_deterministic_order fs0W gC8 "/cwd" ["*"] (some "/b") [] (by decide)
